import Mathlib

/-!
Shallow embedding of steam-shortcut-rs (src/src/lib.rs): a recursive-descent
decoder for the binary shortcuts.vdf format, plus the projection of decoded
loose maps into `Shortcut` records and the index-driven iterator.

Modelling conventions:
* The byte source (`Bytes<File>`) yields `Option<Result<u8, io::Error>>`;
  we model the stream as a `List Item` where `Item.ok b` is a successfully
  read byte and `Item.ioerr` is a read that failed with an IO error.
  End of the list is end of input.
* Rust `String`s are modelled as their byte sequences (`List Nat`);
  `String::from_utf8` succeeds exactly on valid UTF-8 and is injective on
  valid byte sequences, so keeping the bytes loses nothing.  `utf8Valid`
  reproduces the standard UTF-8 well-formedness table used by Rust.
* A Rust panic (`unwrap`, `expect`) is modelled as `Option.none` /
  `PErr.utf8Panic` depending on the signature being embedded; `?` on
  `std::io::Error` is `PErr.ioError`.
* `HashMap<String, Box<dyn Any>>` becomes an association list `LooseMap`
  with insert-overwrites semantics (`insertKey`); the `Box<dyn Any>`
  payloads that the program ever stores are exactly `LooseMap`, `String`
  and `u32`, captured by the closed sum `LValue`, and every `downcast`
  in the source becomes a constructor match.
* The `while let` loop of `parse_object` is expressed with an explicit
  fuel parameter so that the function is structurally recursive and
  computable by kernel reduction.  Every loop iteration consumes at least
  the tag byte, so fuel `s.length + 1` is always sufficient; this is made
  precise by `parseObjectF_fuel_irrel` below, and `PErr.outOfFuel` is
  unreachable from `parse_object`.
-/

/-- One element produced by the byte source: a byte, or an IO read error
(`Bytes<File>` yields `Result<u8, io::Error>`). -/
inductive Item where
  | ok (b : Nat)
  | ioerr
deriving DecidableEq

/-- Abnormal outcomes of the decoder: a propagated `io::Error`, the
`expect` panic on invalid UTF-8 inside `read_next_string`, and the
fuel marker (unreachable for the fuel supplied by `parse_object`). -/
inductive PErr where
  | ioError
  | utf8Panic
  | outOfFuel
deriving DecidableEq

/-- The values the program stores in its `LooseMap`
(`HashMap<String, Box<dyn Any>>`): nested maps, strings, `u32`s. -/
inductive LValue where
  | obj (m : List (List Nat × LValue))
  | str (s : List Nat)
  | int (v : Nat)

/-- The dynamically-shaped tree node: `HashMap<String, Box<dyn Any>>`,
modelled as an association list from key bytes to tagged values. -/
abbrev LooseMap := List (List Nat × LValue)

/-- `HashMap::get`: the value stored at a key, if any. -/
def lookupKey : LooseMap → List Nat → Option LValue
  | [], _ => none
  | (k', v) :: rest, k => if k' = k then some v else lookupKey rest k

/-- `HashMap::insert`: overwrite the value at an existing key, else append
(last write wins, as for the source's hash map). -/
def insertKey : LooseMap → List Nat → LValue → LooseMap
  | [], k, v => [(k, v)]
  | (k', v') :: rest, k, v =>
    if k' = k then (k, v) :: rest else (k', v') :: insertKey rest k v

/-- The `take_while`/`collect` part of `read_next_string`: gather bytes
until a 0x00 terminator, an IO error, or end of input.  The item that
stops the scan (terminator byte or errored read) is consumed; an IO
error and end of input both end the string like a terminator, because
the source's predicate maps `Err(_)` to `false`. -/
def read_next_bytes : List Item → List Nat × List Item
  | [] => ([], [])
  | .ioerr :: rest => ([], rest)
  | .ok b :: rest =>
    if b = 0 then ([], rest)
    else
      let p := read_next_bytes rest
      (b :: p.1, p.2)

/-- Standard UTF-8 well-formedness of a byte sequence, exactly the
condition under which Rust's `String::from_utf8` succeeds: lead bytes
0xC2–0xDF/0xE0–0xEF/0xF0–0xF4 with the usual continuation ranges,
rejecting overlong forms, surrogates and code points above 0x10FFFF. -/
def utf8Valid : List Nat → Bool
  | [] => true
  | b :: rest =>
    if b < 0x80 then utf8Valid rest
    else if b < 0xC2 then false
    else if b < 0xE0 then
      match rest with
      | b1 :: r => (0x80 ≤ b1 && b1 < 0xC0) && utf8Valid r
      | [] => false
    else if b < 0xF0 then
      match rest with
      | b1 :: b2 :: r =>
        (((if b = 0xE0 then 0xA0 else 0x80) ≤ b1 && b1 < (if b = 0xED then 0xA0 else 0xC0))
          && (0x80 ≤ b2 && b2 < 0xC0)) && utf8Valid r
      | _ => false
    else if b < 0xF5 then
      match rest with
      | b1 :: b2 :: b3 :: r =>
        (((if b = 0xF0 then 0x90 else 0x80) ≤ b1 && b1 < (if b = 0xF4 then 0x90 else 0xC0))
          && (0x80 ≤ b2 && b2 < 0xC0) && (0x80 ≤ b3 && b3 < 0xC0)) && utf8Valid r
      | _ => false
    else false

/-- `read_next_string`: collect bytes up to a terminator condition and run
them through `String::from_utf8(..).expect(..)`; `none` is the panic on
invalid UTF-8. -/
def read_next_string (s : List Item) : Option (List Nat × List Item) :=
  let p := read_next_bytes s
  if utf8Valid p.1 then some p else none

/-- The `for x in handle.take(4)` loop of the `TYPE_INT` branch:
`target |= (x? as u32) << i; i += 1`.  Note the source shifts by the byte
index `i` (1 bit per byte), not by `8 * i`; we reproduce that exactly.
An errored read propagates (`x?`); fewer than 4 available bytes simply
end the loop.  All intermediate values are below 2^32, so `Nat` models
`u32` without wrap. -/
def readIntLoop : Nat → Nat → Nat → List Item → Except PErr (Nat × List Item)
  | 0, _, acc, s => .ok (acc, s)
  | _ + 1, _, acc, [] => .ok (acc, [])
  | _ + 1, _, _, .ioerr :: _ => .error .ioError
  | k + 1, i, acc, .ok b :: rest => readIntLoop k (i + 1) (acc ||| (b <<< i)) rest

/-- Reading one integer value: at most 4 bytes, starting with shift 0
and accumulator 0. -/
def readInt (s : List Item) : Except PErr (Nat × List Item) :=
  readIntLoop 4 0 0 s

/-- The value the source's integer loop assembles from a list of bytes
when it ORs byte `j` shifted left by `j` bits into the accumulator. -/
def specFold : List Nat → Nat → Nat → Nat
  | [], _, acc => acc
  | b :: rest, i, acc => specFold rest (i + 1) (acc ||| (b <<< i))

/-- `parse_object`, fuel-indexed.  Mirrors the source loop:
`while let Some(Ok(header)) = handle.next()` — so end of input AND an
IO error while reading the tag byte both end the loop successfully;
tag 8 returns the map built so far; otherwise the key cstring is read
(even for unrecognized tags), then the value according to the tag:
0 = nested object (recursive call), 1 = string, 2 = integer, anything
else is skipped with only a diagnostic print.  Fuel falls by one per
loop iteration / nested call; each iteration consumes at least the tag
byte, so fuel `s.length + 1` never runs out. -/
def parseObjectF : Nat → LooseMap → List Item → Except PErr (LooseMap × List Item)
  | 0, _, _ => .error .outOfFuel
  | _ + 1, acc, [] => .ok (acc, [])
  | _ + 1, acc, .ioerr :: rest => .ok (acc, rest)
  | f + 1, acc, .ok header :: rest =>
    if header = 8 then .ok (acc, rest)
    else
      match read_next_string rest with
      | none => .error .utf8Panic
      | some (property, r1) =>
        if header = 0 then
          match parseObjectF f [] r1 with
          | .error e => .error e
          | .ok (m, r2) => parseObjectF f (insertKey acc property (.obj m)) r2
        else if header = 1 then
          match read_next_string r1 with
          | none => .error .utf8Panic
          | some (v, r2) => parseObjectF f (insertKey acc property (.str v)) r2
        else if header = 2 then
          match readInt r1 with
          | .error e => .error e
          | .ok (v, r2) => parseObjectF f (insertKey acc property (.int v)) r2
        else parseObjectF f acc r1

/-- `parse_object` run on an intermediate state: the current accumulated
map and the remaining stream, with the always-sufficient fuel. -/
def parseRun (acc : LooseMap) (s : List Item) : Except PErr (LooseMap × List Item) :=
  parseObjectF (s.length + 1) acc s

/-- The source's `parse_object` entry point: empty map, whole stream. -/
def parse_object (s : List Item) : Except PErr (LooseMap × List Item) :=
  parseObjectF (s.length + 1) [] s

/-- The fixed `Shortcut` record of the source, with `SystemTime` values
represented as seconds since `UNIX_EPOCH` (the source computes
`UNIX_EPOCH + Duration::from_secs(v as u64)`). -/
structure Shortcut where
  id : Nat
  app_name : List Nat
  exe : List Nat
  start_dir : List Nat
  is_hidden : Bool
  icon : List Nat
  launch_options : List Nat
  allow_desktop_config : Bool
  shortcut_path : List Nat
  last_play_time : Nat
  open_vr : Bool
  tags : List (List Nat)
deriving DecidableEq

/-- UTF-8 bytes of the key "AppName". -/
def appNameKey : List Nat := [65, 112, 112, 78, 97, 109, 101]

/-- UTF-8 bytes of the key "exe". -/
def exeKey : List Nat := [101, 120, 101]

/-- UTF-8 bytes of the key "StartDir". -/
def startDirKey : List Nat := [83, 116, 97, 114, 116, 68, 105, 114]

/-- UTF-8 bytes of the key "IsHidden". -/
def isHiddenKey : List Nat := [73, 115, 72, 105, 100, 100, 101, 110]

/-- UTF-8 bytes of the key "icon". -/
def iconKey : List Nat := [105, 99, 111, 110]

/-- UTF-8 bytes of the key "LaunchOptions". -/
def launchOptionsKey : List Nat := [76, 97, 117, 110, 99, 104, 79, 112, 116, 105, 111, 110, 115]

/-- UTF-8 bytes of the key "AllowDesktopConfig". -/
def allowDesktopConfigKey : List Nat :=
  [65, 108, 108, 111, 119, 68, 101, 115, 107, 116, 111, 112, 67, 111, 110, 102, 105, 103]

/-- UTF-8 bytes of the key "OpenVR". -/
def openVRKey : List Nat := [79, 112, 101, 110, 86, 82]

/-- UTF-8 bytes of the key "ShortcutPath". -/
def shortcutPathKey : List Nat := [83, 104, 111, 114, 116, 99, 117, 116, 80, 97, 116, 104]

/-- UTF-8 bytes of the key "LastPlayTime". -/
def lastPlayTimeKey : List Nat := [76, 97, 115, 116, 80, 108, 97, 121, 84, 105, 109, 101]

/-- UTF-8 bytes of the key "shortcuts". -/
def shortcutsKey : List Nat := [115, 104, 111, 114, 116, 99, 117, 116, 115]

/-- `t.get(k).unwrap().downcast_ref::<String>().unwrap()`: `none` models
either unwrap panic (missing key, or value not a `String`). -/
def getStr (m : LooseMap) (k : List Nat) : Option (List Nat) :=
  match lookupKey m k with
  | some (.str s) => some s
  | _ => none

/-- `t.get(k).unwrap().downcast_ref::<u32>().unwrap()`: `none` models
either unwrap panic (missing key, or value not a `u32`). -/
def getInt (m : LooseMap) (k : List Nat) : Option Nat :=
  match lookupKey m k with
  | some (.int v) => some v
  | _ => none

/-- `impl From<&LooseMap> for Shortcut`.  The source's return type is a
bare `Shortcut`; its only failure mode is an `unwrap` panic on a missing
or wrongly-typed field, modelled by `none`.  Field reads occur in the
source's struct-literal order; `id` is hardwired to 0 and `tags` to the
empty vector; the three boolean fields compare the stored integer with 1;
`last_play_time` keeps the stored seconds value. -/
def shortcut_from (t : LooseMap) : Option Shortcut := do
  let an ← getStr t appNameKey
  let ex ← getStr t exeKey
  let sd ← getStr t startDirKey
  let ih ← getInt t isHiddenKey
  let ic ← getStr t iconKey
  let lo ← getStr t launchOptionsKey
  let adc ← getInt t allowDesktopConfigKey
  let ovr ← getInt t openVRKey
  let sp ← getStr t shortcutPathKey
  let lpt ← getInt t lastPlayTimeKey
  pure
    { id := 0
      app_name := an
      exe := ex
      start_dir := sd
      is_hidden := ih == 1
      icon := ic
      launch_options := lo
      allow_desktop_config := adc == 1
      shortcut_path := sp
      last_play_time := lpt
      open_vr := ovr == 1
      tags := [] }

/-- A shortcut map is well formed when every required child is present
with the type the projection downcasts to. -/
def well_formed_entry (m : LooseMap) : Bool :=
  (getStr m appNameKey).isSome && (getStr m exeKey).isSome
    && (getStr m startDirKey).isSome && (getInt m isHiddenKey).isSome
    && (getStr m iconKey).isSome && (getStr m launchOptionsKey).isSome
    && (getInt m allowDesktopConfigKey).isSome && (getInt m openVRKey).isSome
    && (getStr m shortcutPathKey).isSome && (getInt m lastPlayTimeKey).isSome

/-- The `Parser` state: the plucked "shortcuts" sub-tree and the cursor
index (the stored filename never influences behaviour and is omitted). -/
structure Parser where
  parsed_map : LooseMap
  idx : Nat

/-- The pluck step of `Parser::new` on a fully decoded root tree:
`obj.remove("shortcuts").unwrap()` followed by
`downcast::<LooseMap>().unwrap()`.  `none` models the unwrap panic when
the key is absent or its value is not a nested map; the source's
`Result` error channel carries only `io::Error` and is never used here. -/
def parser_new (root : LooseMap) : Option Parser :=
  match lookupKey root shortcutsKey with
  | some (.obj m) => some ⟨m, 0⟩
  | _ => none

/-- `format!("{}", idx)`: the decimal ASCII bytes of an index. -/
def decimalKey (n : Nat) : List Nat := (Nat.toDigits 10 n).map Char.toNat

/-- Outcome of one `Iterator::next` call on `Parser`: yield a shortcut
with the successor state, report exhaustion with the unchanged state, or
panic (the `downcast_ref::<LooseMap>().unwrap()` or a projection unwrap). -/
inductive NextResult where
  | yield (sc : Shortcut) (st : Parser)
  | done (st : Parser)
  | panicked

/-- `impl Iterator for Parser`: look up the decimal form of the cursor in
the shortcuts sub-tree; if present, project the nested map (panicking if
it is not a map or malformed), overwrite `id` with the cursor, increment
the cursor and yield; if absent, return `None` leaving the state as is. -/
def parser_next (st : Parser) : NextResult :=
  match lookupKey st.parsed_map (decimalKey st.idx) with
  | none => .done st
  | some (.obj m) =>
    match shortcut_from m with
    | some sc => .yield { sc with id := st.idx } ⟨st.parsed_map, st.idx + 1⟩
    | none => .panicked
  | some _ => .panicked

/-- Wire encoding of one string-valued entry: tag 1, key cstring,
value cstring. -/
def strEntry (k v : List Nat) : List Item :=
  .ok 1 :: k.map .ok ++ .ok 0 :: v.map .ok ++ [.ok 0]

/-- A complete, well-typed shortcut map whose three boolean-coded fields
all hold the integer `v`: AppName "C", exe "c", StartDir "/", empty icon,
launch options and shortcut path, LastPlayTime 0. -/
def sampleEntry (v : Nat) : LooseMap :=
  [(appNameKey, .str [67]), (exeKey, .str [99]), (startDirKey, .str [47]),
   (isHiddenKey, .int v), (iconKey, .str []), (launchOptionsKey, .str []),
   (allowDesktopConfigKey, .int v), (openVRKey, .int v),
   (shortcutPathKey, .str []), (lastPlayTimeKey, .int 0)]

/-- The record `shortcut_from` produces on `sampleEntry v`. -/
def sampleShortcut (v : Nat) : Shortcut :=
  { id := 0, app_name := [67], exe := [99], start_dir := [47],
    is_hidden := v == 1, icon := [], launch_options := [],
    allow_desktop_config := v == 1, shortcut_path := [],
    last_play_time := 0, open_vr := v == 1, tags := [] }

/-- A shortcuts sub-tree with entries under "0", "1" and "3" but not
"2" — the index-gap scenario of the spec. -/
def gapMap (m0 m1 m3 : LooseMap) : LooseMap :=
  [(decimalKey 0, .obj m0), (decimalKey 1, .obj m1), (decimalKey 3, .obj m3)]

theorem read_next_bytes_cstr (kb : List Nat) (s : List Item) (hk0 : ∀ b ∈ kb, b ≠ 0) :
    read_next_bytes (kb.map .ok ++ .ok 0 :: s) = (kb, s) := by
  induction kb with
  | nil => simp [read_next_bytes]
  | cons b t ih =>
    have hb : b ≠ 0 := hk0 b (by simp)
    simp only [List.map_cons, List.cons_append, read_next_bytes, if_neg hb, List.append_eq]
    rw [ih (fun x hx => hk0 x (by simp [hx]))]

theorem read_next_bytes_exhaust (kb : List Nat) (hk0 : ∀ b ∈ kb, b ≠ 0) :
    read_next_bytes (kb.map .ok) = (kb, []) := by
  induction kb with
  | nil => simp [read_next_bytes]
  | cons b t ih =>
    have hb : b ≠ 0 := hk0 b (by simp)
    simp only [List.map_cons, read_next_bytes, if_neg hb]
    rw [ih (fun x hx => hk0 x (by simp [hx]))]

theorem read_next_bytes_ioerr (kb : List Nat) (s : List Item) (hk0 : ∀ b ∈ kb, b ≠ 0) :
    read_next_bytes (kb.map .ok ++ .ioerr :: s) = (kb, s) := by
  induction kb with
  | nil => simp [read_next_bytes]
  | cons b t ih =>
    have hb : b ≠ 0 := hk0 b (by simp)
    simp only [List.map_cons, List.cons_append, read_next_bytes, if_neg hb, List.append_eq]
    rw [ih (fun x hx => hk0 x (by simp [hx]))]

theorem read_next_string_cstr (kb : List Nat) (s : List Item)
    (hk0 : ∀ b ∈ kb, b ≠ 0) (hku : utf8Valid kb = true) :
    read_next_string (kb.map .ok ++ .ok 0 :: s) = some (kb, s) := by
  simp [read_next_string, read_next_bytes_cstr kb s hk0, hku]

theorem read_next_bytes_len (s : List Item) : (read_next_bytes s).2.length ≤ s.length := by
  induction s with
  | nil => simp [read_next_bytes]
  | cons x rest ih =>
    cases x with
    | ioerr => simp [read_next_bytes]
    | ok b =>
      by_cases hb : b = 0
      · simp [read_next_bytes, hb]
      · simp only [read_next_bytes, if_neg hb, List.length_cons]
        exact Nat.le_succ_of_le ih

theorem read_next_string_len (s : List Item) (p : List Nat) (r : List Item)
    (h : read_next_string s = some (p, r)) : r.length ≤ s.length := by
  unfold read_next_string at h
  by_cases hu : utf8Valid (read_next_bytes s).1 = true
  · simp only [hu, if_true] at h
    have h2 : (read_next_bytes s).2 = r := by
      rw [show read_next_bytes s = (p, r) from by
        cases h' : read_next_bytes s
        simp [h'] at h
        simp [h.1, h.2]]
    rw [← h2]
    exact read_next_bytes_len s
  · simp only [hu] at h
    simp at h

theorem readIntLoop_len : ∀ (k i acc : Nat) (s : List Item) (v : Nat) (r : List Item),
    readIntLoop k i acc s = .ok (v, r) → r.length ≤ s.length := by
  intro k
  induction k with
  | zero =>
    intro i acc s v r h
    simp [readIntLoop] at h
    rw [← h.2]
  | succ k ih =>
    intro i acc s v r h
    cases s with
    | nil =>
      simp [readIntLoop] at h
      rw [← h.2]
    | cons x rest =>
      cases x with
      | ioerr => simp [readIntLoop] at h
      | ok b =>
        simp only [readIntLoop] at h
        exact Nat.le_succ_of_le (ih _ _ _ _ _ h)

theorem readIntLoop_all : ∀ (vs : List Nat) (k i acc : Nat), vs.length ≤ k →
    readIntLoop k i acc (vs.map .ok) = .ok (specFold vs i acc, []) := by
  intro vs
  induction vs with
  | nil =>
    intro k i acc _
    cases k <;> simp [readIntLoop, specFold]
  | cons b t ih =>
    intro k i acc hk
    cases k with
    | zero => simp at hk
    | succ k =>
      simp only [List.map_cons, readIntLoop, specFold]
      exact ih k (i + 1) (acc ||| (b <<< i)) (by simpa using hk)

theorem parseObjectF_consume : ∀ (f : Nat) (acc : LooseMap) (s : List Item)
    (m : LooseMap) (r : List Item),
    parseObjectF f acc s = .ok (m, r) → r.length ≤ s.length := by
  intro f
  induction f with
  | zero => intro acc s m r h; simp [parseObjectF] at h
  | succ f ih =>
    intro acc s m r h
    cases s with
    | nil =>
      simp [parseObjectF] at h
      rw [← h.2]
    | cons x rest =>
      cases x with
      | ioerr =>
        simp [parseObjectF] at h
        rw [← h.2]
        exact Nat.le_succ _
      | ok header =>
        by_cases h8 : header = 8
        · simp [parseObjectF, h8] at h
          rw [← h.2]
          exact Nat.le_succ _
        · simp only [parseObjectF, if_neg h8] at h
          cases hrs : read_next_string rest with
          | none => rw [hrs] at h; simp at h
          | some pr =>
            obtain ⟨property, r1⟩ := pr
            rw [hrs] at h
            simp only at h
            have hr1 : r1.length ≤ rest.length := read_next_string_len rest property r1 hrs
            by_cases h0 : header = 0
            · simp only [if_pos h0] at h
              cases hn : parseObjectF f [] r1 with
              | error e => rw [hn] at h; simp at h
              | ok p =>
                obtain ⟨m1, r2⟩ := p
                rw [hn] at h
                simp only at h
                have hr2 : r2.length ≤ r1.length := ih _ _ _ _ hn
                have hr : r.length ≤ r2.length := ih _ _ _ _ h
                simp only [List.length_cons]
                omega
            · simp only [if_neg h0] at h
              by_cases h1 : header = 1
              · simp only [if_pos h1] at h
                cases hv : read_next_string r1 with
                | none => rw [hv] at h; simp at h
                | some pv =>
                  obtain ⟨v, r2⟩ := pv
                  rw [hv] at h
                  simp only at h
                  have hr2 : r2.length ≤ r1.length := read_next_string_len r1 v r2 hv
                  have hr : r.length ≤ r2.length := ih _ _ _ _ h
                  simp only [List.length_cons]
                  omega
              · simp only [if_neg h1] at h
                by_cases h2 : header = 2
                · simp only [if_pos h2] at h
                  cases hv : readInt r1 with
                  | error e => rw [hv] at h; simp at h
                  | ok pv =>
                    obtain ⟨v, r2⟩ := pv
                    rw [hv] at h
                    simp only at h
                    have hr2 : r2.length ≤ r1.length := readIntLoop_len 4 0 0 r1 v r2 hv
                    have hr : r.length ≤ r2.length := ih _ _ _ _ h
                    simp only [List.length_cons]
                    omega
                · simp only [if_neg h2] at h
                  have hr : r.length ≤ r1.length := ih _ _ _ _ h
                  simp only [List.length_cons]
                  omega

theorem parseObjectF_fuel_irrel : ∀ (n f f' : Nat) (acc : LooseMap) (s : List Item),
    s.length ≤ n → s.length < f → s.length < f' →
    parseObjectF f acc s = parseObjectF f' acc s := by
  intro n
  induction n with
  | zero =>
    intro f f' acc s hn hf hf'
    have hs : s = [] := List.eq_nil_of_length_eq_zero (Nat.le_zero.mp hn)
    subst hs
    cases f with
    | zero => omega
    | succ f1 =>
      cases f' with
      | zero => omega
      | succ f2 => simp [parseObjectF]
  | succ n ih =>
    intro f f' acc s hn hf hf'
    cases f with
    | zero => omega
    | succ f1 =>
      cases f' with
      | zero => omega
      | succ f2 =>
        cases s with
        | nil => simp [parseObjectF]
        | cons x rest =>
          cases x with
          | ioerr => simp [parseObjectF]
          | ok header =>
            by_cases h8 : header = 8
            · simp [parseObjectF, h8]
            · simp only [parseObjectF, if_neg h8]
              cases hrs : read_next_string rest with
              | none => rfl
              | some pr =>
                obtain ⟨property, r1⟩ := pr
                simp only
                have hrest : rest.length ≤ n := by
                  simp only [List.length_cons] at hn
                  omega
                have hfr : rest.length < f1 := by
                  simp only [List.length_cons] at hf
                  omega
                have hfr' : rest.length < f2 := by
                  simp only [List.length_cons] at hf'
                  omega
                have hr1 : r1.length ≤ rest.length := read_next_string_len rest property r1 hrs
                by_cases h0 : header = 0
                · simp only [if_pos h0]
                  have hnested : parseObjectF f1 [] r1 = parseObjectF f2 [] r1 :=
                    ih f1 f2 [] r1 (by omega) (by omega) (by omega)
                  rw [← hnested]
                  cases hn2 : parseObjectF f1 [] r1 with
                  | error e => rfl
                  | ok p =>
                    obtain ⟨m1, r2⟩ := p
                    simp only
                    have hr2 : r2.length ≤ r1.length := parseObjectF_consume f1 [] r1 m1 r2 hn2
                    exact ih f1 f2 _ r2 (by omega) (by omega) (by omega)
                · simp only [if_neg h0]
                  by_cases h1 : header = 1
                  · simp only [if_pos h1]
                    cases hv : read_next_string r1 with
                    | none => rfl
                    | some pv =>
                      obtain ⟨v, r2⟩ := pv
                      simp only
                      have hr2 : r2.length ≤ r1.length := read_next_string_len r1 v r2 hv
                      exact ih f1 f2 _ r2 (by omega) (by omega) (by omega)
                  · simp only [if_neg h1]
                    by_cases h2 : header = 2
                    · simp only [if_pos h2]
                      cases hv : readInt r1 with
                      | error e => rfl
                      | ok pv =>
                        obtain ⟨v, r2⟩ := pv
                        simp only
                        have hr2 : r2.length ≤ r1.length := readIntLoop_len 4 0 0 r1 v r2 hv
                        exact ih f1 f2 _ r2 (by omega) (by omega) (by omega)
                    · simp only [if_neg h2]
                      exact ih f1 f2 acc r1 (by omega) (by omega) (by omega)

theorem readIntLoop_no_fuel_error : ∀ (k i acc : Nat) (s : List Item),
    readIntLoop k i acc s ≠ .error .outOfFuel := by
  intro k
  induction k with
  | zero => intro i acc s h; simp [readIntLoop] at h
  | succ k ih =>
    intro i acc s h
    cases s with
    | nil => simp [readIntLoop] at h
    | cons x rest =>
      cases x with
      | ioerr => simp [readIntLoop] at h
      | ok b => exact ih _ _ _ h

theorem parseObjectF_fuel_sufficient : ∀ (f : Nat) (acc : LooseMap) (s : List Item),
    s.length < f → parseObjectF f acc s ≠ .error .outOfFuel := by
  intro f
  induction f with
  | zero => intro acc s hf; omega
  | succ f ih =>
    intro acc s hf h
    cases s with
    | nil => simp [parseObjectF] at h
    | cons x rest =>
      have hrest : rest.length < f + 1 := by
        simp only [List.length_cons] at hf
        omega
      cases x with
      | ioerr => simp [parseObjectF] at h
      | ok header =>
        by_cases h8 : header = 8
        · simp [parseObjectF, h8] at h
        · simp only [parseObjectF, if_neg h8] at h
          cases hrs : read_next_string rest with
          | none => rw [hrs] at h; simp at h
          | some pr =>
            obtain ⟨property, r1⟩ := pr
            rw [hrs] at h
            simp only at h
            have hr1 : r1.length ≤ rest.length := read_next_string_len rest property r1 hrs
            have hfr1 : r1.length < f := by
              simp only [List.length_cons] at hf
              omega
            by_cases h0 : header = 0
            · simp only [if_pos h0] at h
              cases hn : parseObjectF f [] r1 with
              | error e =>
                rw [hn] at h
                simp only [Except.error.injEq] at h
                exact ih [] r1 hfr1 (by rw [hn, h])
              | ok p =>
                obtain ⟨m1, r2⟩ := p
                rw [hn] at h
                simp only at h
                have hr2 : r2.length ≤ r1.length := parseObjectF_consume f [] r1 m1 r2 hn
                exact ih _ r2 (by omega) h
            · simp only [if_neg h0] at h
              by_cases h1 : header = 1
              · simp only [if_pos h1] at h
                cases hv : read_next_string r1 with
                | none => rw [hv] at h; simp at h
                | some pv =>
                  obtain ⟨v, r2⟩ := pv
                  rw [hv] at h
                  simp only at h
                  have hr2 : r2.length ≤ r1.length := read_next_string_len r1 v r2 hv
                  exact ih _ r2 (by omega) h
              · simp only [if_neg h1] at h
                by_cases h2 : header = 2
                · simp only [if_pos h2] at h
                  cases hv : readInt r1 with
                  | error e =>
                    rw [hv] at h
                    simp only [Except.error.injEq] at h
                    exact readIntLoop_no_fuel_error 4 0 0 r1
                      (by rw [show readIntLoop 4 0 0 r1 = readInt r1 from rfl, hv, h])
                  | ok pv =>
                    obtain ⟨v, r2⟩ := pv
                    rw [hv] at h
                    simp only at h
                    have hr2 : r2.length ≤ r1.length := readIntLoop_len 4 0 0 r1 v r2 hv
                    exact ih _ r2 (by omega) h
                · simp only [if_neg h2] at h
                  exact ih acc r1 hfr1 h

theorem parseObjectF_eq_parseRun (f : Nat) (acc : LooseMap) (s : List Item)
    (hf : s.length < f) : parseObjectF f acc s = parseRun acc s :=
  parseObjectF_fuel_irrel s.length f (s.length + 1) acc s le_rfl hf (Nat.lt_succ_self _)

theorem parseRun_term (acc : LooseMap) (rest : List Item) :
    parseRun acc (.ok 8 :: rest) = .ok (acc, rest) := by
  simp [parseRun, parseObjectF]

theorem parseRun_skip (t : Nat) (kb : List Nat) (acc : LooseMap) (s : List Item)
    (ht0 : t ≠ 0) (ht1 : t ≠ 1) (ht2 : t ≠ 2) (ht8 : t ≠ 8)
    (hk0 : ∀ b ∈ kb, b ≠ 0) (hku : utf8Valid kb = true) :
    parseRun acc (.ok t :: kb.map .ok ++ .ok 0 :: s) = parseRun acc s := by
  have hlen : (Item.ok t :: kb.map .ok ++ .ok 0 :: s).length = kb.length + s.length + 2 := by
    simp only [List.length_cons, List.length_append, List.length_map]
    omega
  have h1 : parseRun acc (.ok t :: kb.map .ok ++ .ok 0 :: s)
      = parseObjectF (kb.length + s.length + 2) acc s := by
    unfold parseRun
    rw [hlen]
    simp only [parseObjectF, List.append_eq, if_neg ht8, read_next_string_cstr kb s hk0 hku,
      if_neg ht0, if_neg ht1, if_neg ht2]
  rw [h1]
  exact parseObjectF_eq_parseRun _ acc s (by omega)

theorem parseRun_str (k v : List Nat) (acc : LooseMap) (s : List Item)
    (hk0 : ∀ b ∈ k, b ≠ 0) (hku : utf8Valid k = true)
    (hv0 : ∀ b ∈ v, b ≠ 0) (hvu : utf8Valid v = true) :
    parseRun acc (strEntry k v ++ s) = parseRun (insertKey acc k (.str v)) s := by
  have hshape : strEntry k v ++ s
      = Item.ok 1 :: (k.map .ok ++ .ok 0 :: (v.map .ok ++ .ok 0 :: s)) := by
    simp [strEntry]
  rw [hshape]
  have hlen : (Item.ok 1 :: (k.map .ok ++ .ok 0 :: (v.map .ok ++ .ok 0 :: s))).length
      = k.length + v.length + s.length + 3 := by
    simp only [List.length_cons, List.length_append, List.length_map]
    omega
  have h1 : parseRun acc (Item.ok 1 :: (k.map .ok ++ .ok 0 :: (v.map .ok ++ .ok 0 :: s)))
      = parseObjectF (k.length + v.length + s.length + 3) (insertKey acc k (.str v)) s := by
    unfold parseRun
    rw [hlen]
    simp only [parseObjectF, List.append_eq, if_neg (show (1 : Nat) ≠ 8 by decide),
      read_next_string_cstr k (v.map Item.ok ++ Item.ok 0 :: s) hk0 hku,
      if_neg (show (1 : Nat) ≠ 0 by decide), if_pos (show (1 : Nat) = 1 from rfl),
      if_true, read_next_string_cstr v s hv0 hvu]
  rw [h1]
  exact parseObjectF_eq_parseRun _ _ s (by omega)

theorem parseRun_obj_empty (kb : List Nat) (acc : LooseMap) (s : List Item)
    (hk0 : ∀ b ∈ kb, b ≠ 0) (hku : utf8Valid kb = true) :
    parseRun acc (.ok 0 :: kb.map .ok ++ .ok 0 :: .ok 8 :: s)
      = parseRun (insertKey acc kb (.obj [])) s := by
  have hlen : (Item.ok 0 :: kb.map .ok ++ .ok 0 :: .ok 8 :: s).length
      = kb.length + s.length + 3 := by
    simp only [List.length_cons, List.length_append, List.length_map]
    omega
  have h1 : parseRun acc (.ok 0 :: kb.map .ok ++ .ok 0 :: .ok 8 :: s)
      = parseObjectF (kb.length + s.length + 3) (insertKey acc kb (.obj [])) s := by
    unfold parseRun
    rw [hlen]
    simp only [parseObjectF, List.append_eq, if_neg (show (0 : Nat) ≠ 8 by decide),
      read_next_string_cstr kb (Item.ok 8 :: s) hk0 hku,
      if_pos (show (0 : Nat) = 0 from rfl), if_pos (show (8 : Nat) = 8 from rfl), if_true]
  rw [h1]
  exact parseObjectF_eq_parseRun _ _ s (by omega)

/-- Claim C1 (code bug): the decoder's integer assembly is NOT the
little-endian assembly the claim states.  The source ORs byte `j`
shifted left by `j` bits (`target |= (x? as u32) << i; i += 1`) instead
of by `8*j`, so `[0x01,0x00,0x00,0x00]` still decodes to 1 but
`[0x00,0x01,0x00,0x00]` decodes to 2, not 256, both at the `readInt`
level and through a whole `parse_object` stream with an Integer entry
under key "k". -/
theorem c1_integer_assembly_bug :
    readInt [Item.ok 1, Item.ok 0, Item.ok 0, Item.ok 0] = .ok (1, []) ∧
    readInt [Item.ok 0, Item.ok 1, Item.ok 0, Item.ok 0] = .ok (2, []) ∧
    parse_object [Item.ok 2, Item.ok 107, Item.ok 0, Item.ok 0, Item.ok 1, Item.ok 0, Item.ok 0]
      = .ok ([([107], .int 2)], []) :=
  ⟨rfl, rfl, rfl⟩

/-- Claim C2 counterexample: a stream whose Integer entry (tag 2, key
"k") is followed by a single value byte before end-of-input decodes
successfully to a tree containing the partially assembled integer —
no truncated-integer error is returned. -/
theorem c2_counterexample :
    parse_object [Item.ok 2, Item.ok 107, Item.ok 0, Item.ok 1]
      = .ok ([([107], LValue.int 1)], []) :=
  rfl

/-- Claim C2 (amended): when an Integer-tagged entry's value is followed
by fewer than 4 bytes before end-of-input, the decode does NOT fail: the
integer is assembled from however many bytes remain (via the source's
shift-by-index OR loop, `specFold`) and the decoder returns a
successfully built tree containing that partial integer. -/
theorem c2_truncation_tolerated (kb vs : List Nat)
    (hk0 : ∀ b ∈ kb, b ≠ 0) (hku : utf8Valid kb = true) (hv : vs.length < 4) :
    parse_object (.ok 2 :: kb.map .ok ++ .ok 0 :: vs.map .ok)
      = .ok ([(kb, .int (specFold vs 0 0))], []) := by
  have hlen : (Item.ok 2 :: kb.map Item.ok ++ Item.ok 0 :: vs.map Item.ok).length
      = kb.length + vs.length + 2 := by
    simp only [List.length_cons, List.length_append, List.length_map]
    omega
  unfold parse_object
  rw [hlen]
  simp only [parseObjectF, List.append_eq, if_neg (show (2 : Nat) ≠ 8 by decide),
    read_next_string_cstr kb (vs.map Item.ok) hk0 hku,
    if_neg (show (2 : Nat) ≠ 0 by decide), if_neg (show (2 : Nat) ≠ 1 by decide),
    if_pos (show (2 : Nat) = 2 from rfl), if_true, readInt,
    readIntLoop_all vs 4 0 0 (by omega), insertKey]

/-- Claim C2 witness: the amended statement at the concrete truncated
stream tag 2, key "k", one value byte 1. -/
theorem c2_truncation_tolerated_witness :
    parse_object (Item.ok 2 :: List.map Item.ok [107] ++ Item.ok 0 :: List.map Item.ok [1])
      = .ok ([([107], .int (specFold [1] 0 0))], []) :=
  c2_truncation_tolerated [107] [1] (by decide) (by decide) (by decide)

/-- Claim C9: on hitting tag 8 the decoder consumes exactly that byte
and returns the map built so far: (i) at any nesting level and any fuel,
a stream starting with tag 8 returns the accumulated map and the
untouched remainder; (ii) the root decode of a stream starting with
tag 8 returns the empty map and the untouched remainder; (iii) a nested
empty object entry (tag 0, key, terminator 8) consumes its terminator
and decoding continues at the caller's level immediately after it. -/
theorem c9_terminator (kb : List Nat)
    (hk0 : ∀ b ∈ kb, b ≠ 0) (hku : utf8Valid kb = true) :
    (∀ (f : Nat) (acc : LooseMap) (rest : List Item),
      parseObjectF (f + 1) acc (.ok 8 :: rest) = .ok (acc, rest)) ∧
    (∀ rest : List Item, parse_object (.ok 8 :: rest) = .ok ([], rest)) ∧
    (∀ (acc : LooseMap) (s : List Item),
      parseRun acc (.ok 0 :: kb.map .ok ++ .ok 0 :: .ok 8 :: s)
        = parseRun (insertKey acc kb (.obj [])) s) := by
  refine ⟨?_, ?_, ?_⟩
  · intro f acc rest
    simp [parseObjectF]
  · intro rest
    exact parseRun_term [] rest
  · intro acc s
    exact parseRun_obj_empty kb acc s hk0 hku

/-- Claim C9 witness: the three terminator properties at concrete
inputs (key "A", one trailing byte). -/
theorem c9_terminator_witness :
    parseObjectF (0 + 1) [([107], LValue.int 5)] [Item.ok 8, Item.ioerr]
      = .ok ([([107], LValue.int 5)], [Item.ioerr]) ∧
    parse_object [Item.ok 8] = .ok ([], []) ∧
    parseRun [] (.ok 0 :: [65].map Item.ok ++ .ok 0 :: .ok 8 :: [Item.ok 8])
      = parseRun (insertKey [] [65] (.obj [])) [Item.ok 8] := by
  obtain ⟨h1, h2, h3⟩ := c9_terminator [65] (by decide) (by decide)
  exact ⟨h1 0 [([107], LValue.int 5)] [Item.ioerr], h2 [], h3 [] [Item.ok 8]⟩

/-- Claim C10: the cstring reader is total at end-of-input: a stream
that runs out before any 0x00 terminator yields the bytes collected so
far (the empty string for an immediately empty source), and only
invalid UTF-8 makes `read_next_string` fail (the `expect` panic). -/
theorem c10_read_string_total (bs : List Nat) (h0 : ∀ b ∈ bs, b ≠ 0) :
    read_next_bytes (bs.map .ok) = (bs, []) ∧
    read_next_string ([] : List Item) = some ([], []) ∧
    (utf8Valid bs = true → read_next_string (bs.map .ok) = some (bs, [])) ∧
    (utf8Valid bs = false → read_next_string (bs.map .ok) = none) := by
  have hb := read_next_bytes_exhaust bs h0
  refine ⟨hb, rfl, fun hu => ?_, fun hu => ?_⟩
  · simp [read_next_string, hb, hu]
  · simp [read_next_string, hb, hu]

/-- Claim C10 witness: the reader at the unterminated one-byte stream
"A" (valid UTF-8) and at the unterminated invalid byte 0xFF. -/
theorem c10_read_string_total_witness :
    read_next_bytes ([65].map Item.ok) = ([65], []) ∧
    read_next_string ([65].map Item.ok) = some ([65], []) ∧
    read_next_string ([255].map Item.ok) = none := by
  obtain ⟨h1, _, h3, _⟩ := c10_read_string_total [65] (by decide)
  obtain ⟨_, _, _, h4⟩ := c10_read_string_total [255] (by decide)
  exact ⟨h1, h3 (by decide), h4 (by decide)⟩

/-- Claim C3: an entry with a tag byte outside {0,1,2,8} does not abort
decoding; its tag and key are consumed and nothing is recorded:
(i) at any accumulated map and any continuation, the decode proceeds
exactly as if the unrecognized entry were absent; (ii) in the spec's
concrete shape — the unrecognized entry between two well-formed string
entries, then the terminator — both the stream with the entry and the
stream without it decode to the same two-entry map, so the neighbors'
keys, values and count are unaffected. -/
theorem c3_unrecognized_type_skip (t : Nat) (kb : List Nat)
    (ht0 : t ≠ 0) (ht1 : t ≠ 1) (ht2 : t ≠ 2) (ht8 : t ≠ 8)
    (hk0 : ∀ b ∈ kb, b ≠ 0) (hku : utf8Valid kb = true) :
    (∀ (acc : LooseMap) (s : List Item),
      parseRun acc (.ok t :: kb.map .ok ++ .ok 0 :: s) = parseRun acc s) ∧
    (∀ (k1 v1 k2 v2 : List Nat) (rest : List Item),
      (∀ b ∈ k1, b ≠ 0) → utf8Valid k1 = true →
      (∀ b ∈ v1, b ≠ 0) → utf8Valid v1 = true →
      (∀ b ∈ k2, b ≠ 0) → utf8Valid k2 = true →
      (∀ b ∈ v2, b ≠ 0) → utf8Valid v2 = true →
      parse_object (strEntry k1 v1
          ++ (.ok t :: kb.map .ok ++ .ok 0 :: (strEntry k2 v2 ++ .ok 8 :: rest)))
        = .ok (insertKey (insertKey [] k1 (.str v1)) k2 (.str v2), rest) ∧
      parse_object (strEntry k1 v1 ++ (strEntry k2 v2 ++ .ok 8 :: rest))
        = .ok (insertKey (insertKey [] k1 (.str v1)) k2 (.str v2), rest)) := by
  constructor
  · intro acc s
    exact parseRun_skip t kb acc s ht0 ht1 ht2 ht8 hk0 hku
  · intro k1 v1 k2 v2 rest hk1 hu1 hv1 hw1 hk2 hu2 hv2 hw2
    constructor
    · show parseRun [] _ = _
      rw [parseRun_str k1 v1 [] _ hk1 hu1 hv1 hw1,
        parseRun_skip t kb _ _ ht0 ht1 ht2 ht8 hk0 hku,
        parseRun_str k2 v2 _ (Item.ok 8 :: rest) hk2 hu2 hv2 hw2,
        parseRun_term]
    · show parseRun [] _ = _
      rw [parseRun_str k1 v1 [] _ hk1 hu1 hv1 hw1,
        parseRun_str k2 v2 _ (Item.ok 8 :: rest) hk2 hu2 hv2 hw2,
        parseRun_term]

/-- Claim C3 witness: tag 5 with key "A" skipped on its own, and between
the string entries ("a" ↦ "b") and ("c" ↦ "d") before the terminator. -/
theorem c3_unrecognized_type_skip_witness :
    parseRun [] (.ok 5 :: List.map Item.ok [65] ++ .ok 0 :: [Item.ok 8])
      = parseRun [] [Item.ok 8] ∧
    parse_object (strEntry [97] [98]
        ++ (.ok 5 :: List.map Item.ok [65] ++ .ok 0 :: (strEntry [99] [100] ++ .ok 8 :: [])))
      = .ok (insertKey (insertKey [] [97] (.str [98])) [99] (.str [100]), []) ∧
    parse_object (strEntry [97] [98] ++ (strEntry [99] [100] ++ .ok 8 :: []))
      = .ok (insertKey (insertKey [] [97] (.str [98])) [99] (.str [100]), []) := by
  obtain ⟨h1, h2⟩ := c3_unrecognized_type_skip 5 [65]
    (by decide) (by decide) (by decide) (by decide) (by decide) (by decide)
  obtain ⟨h2a, h2b⟩ := h2 [97] [98] [99] [100] []
    (by decide) (by decide) (by decide) (by decide)
    (by decide) (by decide) (by decide) (by decide)
  exact ⟨h1 [] [Item.ok 8], h2a, h2b⟩

/-- Claim C5 counterexample: IO failures from the byte source are NOT
always propagated.  An IO error in the middle of a key cstring is
treated as the string terminator and decoding succeeds ({"A" ↦ "B"}),
and an IO error at a tag-byte position ends the decode successfully as
if the input had ended — in both cases `parse_object` returns `ok`,
not an error. -/
theorem c5_counterexample :
    parse_object [Item.ok 1, Item.ok 65, Item.ioerr, Item.ok 66, Item.ok 0, Item.ok 8]
      = .ok ([([65], LValue.str [66])], []) ∧
    parse_object [Item.ioerr] = .ok ([], []) :=
  ⟨rfl, rfl⟩

/-- Claim C5 (amended): an IO failure is propagated as a fatal error
only from the 4-byte integer-value read (`x?`); an IO failure while
reading a tag byte ends the current object exactly like end-of-input
(the `while let Some(Ok(..))` pattern fails), and an IO failure during
a cstring read acts as the string terminator (the `take_while`
predicate maps `Err` to false). -/
theorem c5_io_error_handling (kb : List Nat)
    (hk0 : ∀ b ∈ kb, b ≠ 0) (hku : utf8Valid kb = true) :
    (∀ (f : Nat) (acc : LooseMap) (rest : List Item),
      parseObjectF (f + 1) acc (.ioerr :: rest) = .ok (acc, rest)) ∧
    (∀ (bs : List Nat) (s : List Item), (∀ b ∈ bs, b ≠ 0) →
      read_next_bytes (bs.map .ok ++ .ioerr :: s) = (bs, s)) ∧
    (∀ (acc : LooseMap) (rest : List Item),
      parseRun acc (.ok 2 :: kb.map .ok ++ .ok 0 :: .ioerr :: rest)
        = .error .ioError) := by
  refine ⟨?_, ?_, ?_⟩
  · intro f acc rest
    simp [parseObjectF]
  · intro bs s hbs
    exact read_next_bytes_ioerr bs s hbs
  · intro acc rest
    have hlen : (Item.ok 2 :: kb.map Item.ok ++ Item.ok 0 :: Item.ioerr :: rest).length
        = kb.length + rest.length + 3 := by
      simp only [List.length_cons, List.length_append, List.length_map]
      omega
    unfold parseRun
    rw [hlen]
    simp only [parseObjectF, List.append_eq, if_neg (show (2 : Nat) ≠ 8 by decide),
      read_next_string_cstr kb (Item.ioerr :: rest) hk0 hku,
      if_neg (show (2 : Nat) ≠ 0 by decide), if_neg (show (2 : Nat) ≠ 1 by decide),
      if_pos (show (2 : Nat) = 2 from rfl), if_true, readInt, readIntLoop]

/-- Claim C5 witness: the amended behaviour at key "k" with concrete
streams. -/
theorem c5_io_error_handling_witness :
    parseObjectF (0 + 1) [] [Item.ioerr, Item.ok 8] = .ok ([], [Item.ok 8]) ∧
    read_next_bytes (List.map Item.ok [65] ++ Item.ioerr :: [Item.ok 8]) = ([65], [Item.ok 8]) ∧
    parseRun [] (.ok 2 :: List.map Item.ok [107] ++ .ok 0 :: Item.ioerr :: [])
      = .error .ioError := by
  obtain ⟨h1, h2, h3⟩ := c5_io_error_handling [107] (by decide) (by decide)
  exact ⟨h1 0 [] [Item.ok 8], h2 [65] [Item.ok 8] (by decide), h3 [] []⟩

/-- Claim C4 counterexample: for the empty node every required child is
absent, yet the projection does not return a typed error result — its
Rust type is a bare `Shortcut` with no error channel, and the `unwrap`
on the first missing field aborts the process (modelled by `none`). -/
theorem c4_counterexample : shortcut_from [] = none :=
  rfl

/-- Claim C4 (amended): whenever any required named child is absent or
has the wrong type tag, the projection panics — it produces no value at
all (`none`, the `unwrap` process abort) rather than a defaulted
`Shortcut` or a typed error result. -/
theorem c4_projection_panics (m : LooseMap) (h : well_formed_entry m = false) :
    shortcut_from m = none := by
  cases hA : getStr m appNameKey with
  | none => simp only [shortcut_from, hA]; rfl
  | some an =>
  cases hB : getStr m exeKey with
  | none => simp only [shortcut_from, hA, hB]; rfl
  | some ex =>
  cases hC : getStr m startDirKey with
  | none => simp only [shortcut_from, hA, hB, hC]; rfl
  | some sd =>
  cases hD : getInt m isHiddenKey with
  | none => simp only [shortcut_from, hA, hB, hC, hD]; rfl
  | some ih =>
  cases hE : getStr m iconKey with
  | none => simp only [shortcut_from, hA, hB, hC, hD, hE]; rfl
  | some ic =>
  cases hF : getStr m launchOptionsKey with
  | none => simp only [shortcut_from, hA, hB, hC, hD, hE, hF]; rfl
  | some lo =>
  cases hG : getInt m allowDesktopConfigKey with
  | none => simp only [shortcut_from, hA, hB, hC, hD, hE, hF, hG]; rfl
  | some adc =>
  cases hH : getInt m openVRKey with
  | none => simp only [shortcut_from, hA, hB, hC, hD, hE, hF, hG, hH]; rfl
  | some ovr =>
  cases hI : getStr m shortcutPathKey with
  | none => simp only [shortcut_from, hA, hB, hC, hD, hE, hF, hG, hH, hI]; rfl
  | some sp =>
  cases hJ : getInt m lastPlayTimeKey with
  | none => simp only [shortcut_from, hA, hB, hC, hD, hE, hF, hG, hH, hI, hJ]; rfl
  | some lpt =>
    exfalso
    simp only [well_formed_entry, hA, hB, hC, hD, hE, hF, hG, hH, hI, hJ, Option.isSome_some,
      Bool.and_true, Bool.true_and] at h
    exact Bool.noConfusion h

/-- Claim C4 witness: the amended statement at the empty node. -/
theorem c4_projection_panics_witness :
    well_formed_entry [] = false ∧ shortcut_from [] = none :=
  ⟨rfl, c4_projection_panics [] rfl⟩

/-- Claim C6 counterexample: with "shortcuts" absent, and with
"shortcuts" present but Integer-tagged, the construction produces no
value at all — the source's `remove(..).unwrap()` /
`downcast::<LooseMap>().unwrap()` panic (modelled `none`); the
`Result<Self, io::Error>` channel of `Parser::new` never carries this
condition as a typed error. -/
theorem c6_counterexample :
    parser_new [] = none ∧ parser_new [(shortcutsKey, LValue.int 0)] = none :=
  ⟨rfl, rfl⟩

/-- Claim C6 (amended): whenever the decoded root tree has no
Object-tagged value under "shortcuts" (absent key or wrong type tag),
constructing the collection panics — it produces no value (`none`, the
`unwrap` process abort) instead of returning the condition as a typed
result. -/
theorem c6_pluck_panics (root : LooseMap)
    (h : ∀ m : LooseMap, lookupKey root shortcutsKey ≠ some (.obj m)) :
    parser_new root = none := by
  unfold parser_new
  cases hx : lookupKey root shortcutsKey with
  | none => rfl
  | some v =>
    cases v with
    | obj m => exact absurd hx (h m)
    | str s => rfl
    | int n => rfl

/-- Claim C6 witness: the amended statement at the empty root tree. -/
theorem c6_pluck_panics_witness :
    (∀ m : LooseMap, lookupKey [] shortcutsKey ≠ some (.obj m)) ∧ parser_new [] = none := by
  have h : ∀ m : LooseMap, lookupKey [] shortcutsKey ≠ some (.obj m) :=
    fun m hm => Option.noConfusion hm
  exact ⟨h, c6_pluck_panics [] h⟩

/-- Claim C7: for a node the projection accepts, each boolean-coded
field (IsHidden, AllowDesktopConfig, OpenVR) of the produced record is
true exactly when the stored 32-bit integer equals 1 — so 0 and 2 both
yield false. -/
theorem c7_bool_coercion (m : LooseMap) (sc : Shortcut) (v : Nat)
    (hm : shortcut_from m = some sc) :
    (getInt m isHiddenKey = some v → (sc.is_hidden = true ↔ v = 1)) ∧
    (getInt m allowDesktopConfigKey = some v → (sc.allow_desktop_config = true ↔ v = 1)) ∧
    (getInt m openVRKey = some v → (sc.open_vr = true ↔ v = 1)) := by
  cases hA : getStr m appNameKey with
  | none =>
    have hn : shortcut_from m = none := by simp only [shortcut_from, hA]; rfl
    rw [hm] at hn; exact Option.noConfusion hn
  | some an =>
  cases hB : getStr m exeKey with
  | none =>
    have hn : shortcut_from m = none := by simp only [shortcut_from, hA, hB]; rfl
    rw [hm] at hn; exact Option.noConfusion hn
  | some ex =>
  cases hC : getStr m startDirKey with
  | none =>
    have hn : shortcut_from m = none := by simp only [shortcut_from, hA, hB, hC]; rfl
    rw [hm] at hn; exact Option.noConfusion hn
  | some sd =>
  cases hD : getInt m isHiddenKey with
  | none =>
    have hn : shortcut_from m = none := by simp only [shortcut_from, hA, hB, hC, hD]; rfl
    rw [hm] at hn; exact Option.noConfusion hn
  | some ih =>
  cases hE : getStr m iconKey with
  | none =>
    have hn : shortcut_from m = none := by simp only [shortcut_from, hA, hB, hC, hD, hE]; rfl
    rw [hm] at hn; exact Option.noConfusion hn
  | some ic =>
  cases hF : getStr m launchOptionsKey with
  | none =>
    have hn : shortcut_from m = none := by
      simp only [shortcut_from, hA, hB, hC, hD, hE, hF]; rfl
    rw [hm] at hn; exact Option.noConfusion hn
  | some lo =>
  cases hG : getInt m allowDesktopConfigKey with
  | none =>
    have hn : shortcut_from m = none := by
      simp only [shortcut_from, hA, hB, hC, hD, hE, hF, hG]; rfl
    rw [hm] at hn; exact Option.noConfusion hn
  | some adc =>
  cases hH : getInt m openVRKey with
  | none =>
    have hn : shortcut_from m = none := by
      simp only [shortcut_from, hA, hB, hC, hD, hE, hF, hG, hH]; rfl
    rw [hm] at hn; exact Option.noConfusion hn
  | some ovr =>
  cases hI : getStr m shortcutPathKey with
  | none =>
    have hn : shortcut_from m = none := by
      simp only [shortcut_from, hA, hB, hC, hD, hE, hF, hG, hH, hI]; rfl
    rw [hm] at hn; exact Option.noConfusion hn
  | some sp =>
  cases hJ : getInt m lastPlayTimeKey with
  | none =>
    have hn : shortcut_from m = none := by
      simp only [shortcut_from, hA, hB, hC, hD, hE, hF, hG, hH, hI, hJ]; rfl
    rw [hm] at hn; exact Option.noConfusion hn
  | some lpt =>
    have heq : shortcut_from m = some
        { id := 0, app_name := an, exe := ex, start_dir := sd, is_hidden := ih == 1,
          icon := ic, launch_options := lo, allow_desktop_config := adc == 1,
          shortcut_path := sp, last_play_time := lpt, open_vr := ovr == 1, tags := [] } := by
      simp only [shortcut_from, hA, hB, hC, hD, hE, hF, hG, hH, hI, hJ]; rfl
    rw [hm] at heq
    injection heq with heq
    subst heq
    refine ⟨?_, ?_, ?_⟩
    · intro hv
      injection hv with hv
      subst hv
      simp
    · intro hv
      injection hv with hv
      subst hv
      simp
    · intro hv
      injection hv with hv
      subst hv
      simp

/-- Claim C7 witness: the boolean coercion on the complete sample node
whose three boolean-coded fields hold 2, where all three project to
false because 2 ≠ 1. -/
theorem c7_bool_coercion_witness :
    ((getInt (sampleEntry 2) isHiddenKey = some 2 →
        ((sampleShortcut 2).is_hidden = true ↔ 2 = 1)) ∧
      (getInt (sampleEntry 2) allowDesktopConfigKey = some 2 →
        ((sampleShortcut 2).allow_desktop_config = true ↔ 2 = 1)) ∧
      (getInt (sampleEntry 2) openVRKey = some 2 →
        ((sampleShortcut 2).open_vr = true ↔ 2 = 1))) ∧
    (sampleShortcut 0).is_hidden = false ∧ (sampleShortcut 2).is_hidden = false ∧
    (sampleShortcut 1).is_hidden = true :=
  ⟨c7_bool_coercion (sampleEntry 2) (sampleShortcut 2) 2 rfl, rfl, rfl, rfl⟩

/-- Claim C8: on the sub-tree with keys "0", "1", "3", iteration yields
the projection of entry "0" with id 0, then of entry "1" with id 1,
then reports exhaustion at the missing index "2" leaving its own state
unchanged — so the entry under "3" is never reached and (last conjunct,
for any state) a lookup miss always returns `done` with the state
unchanged, making every subsequent call yield nothing. -/
theorem c8_index_gap_termination (m0 m1 m3 : LooseMap) (sc0 sc1 : Shortcut)
    (h0 : shortcut_from m0 = some sc0) (h1 : shortcut_from m1 = some sc1) :
    parser_next ⟨gapMap m0 m1 m3, 0⟩
      = .yield { sc0 with id := 0 } ⟨gapMap m0 m1 m3, 1⟩ ∧
    parser_next ⟨gapMap m0 m1 m3, 1⟩
      = .yield { sc1 with id := 1 } ⟨gapMap m0 m1 m3, 2⟩ ∧
    parser_next ⟨gapMap m0 m1 m3, 2⟩ = .done ⟨gapMap m0 m1 m3, 2⟩ ∧
    (∀ st : Parser, lookupKey st.parsed_map (decimalKey st.idx) = none →
      parser_next st = .done st) := by
  have d01 : decimalKey 0 ≠ decimalKey 1 := by decide
  have d02 : decimalKey 0 ≠ decimalKey 2 := by decide
  have d12 : decimalKey 1 ≠ decimalKey 2 := by decide
  have d32 : decimalKey 3 ≠ decimalKey 2 := by decide
  have l0 : lookupKey (gapMap m0 m1 m3) (decimalKey 0) = some (.obj m0) := by
    simp [gapMap, lookupKey]
  have l1 : lookupKey (gapMap m0 m1 m3) (decimalKey 1) = some (.obj m1) := by
    simp [gapMap, lookupKey, d01]
  have l2 : lookupKey (gapMap m0 m1 m3) (decimalKey 2) = none := by
    simp [gapMap, lookupKey, d02, d12, d32]
  refine ⟨?_, ?_, ?_, fun st hl => ?_⟩
  · simp only [parser_next, l0, h0]
  · simp only [parser_next, l1, h1]
  · simp only [parser_next, l2]
  · simp only [parser_next, hl]

/-- Claim C8 witness: the index-gap scenario with the sample entries
under "0" and "1" and an (irrelevant, never-reached) empty node under
"3". -/
theorem c8_index_gap_termination_witness :
    parser_next ⟨gapMap (sampleEntry 0) (sampleEntry 1) [], 0⟩
      = .yield { sampleShortcut 0 with id := 0 } ⟨gapMap (sampleEntry 0) (sampleEntry 1) [], 1⟩ ∧
    parser_next ⟨gapMap (sampleEntry 0) (sampleEntry 1) [], 1⟩
      = .yield { sampleShortcut 1 with id := 1 } ⟨gapMap (sampleEntry 0) (sampleEntry 1) [], 2⟩ ∧
    parser_next ⟨gapMap (sampleEntry 0) (sampleEntry 1) [], 2⟩
      = .done ⟨gapMap (sampleEntry 0) (sampleEntry 1) [], 2⟩ := by
  obtain ⟨w1, w2, w3, _⟩ := c8_index_gap_termination (sampleEntry 0) (sampleEntry 1) []
    (sampleShortcut 0) (sampleShortcut 1) rfl rfl
  exact ⟨w1, w2, w3⟩
